import Mathlib

/-!
Verification of the message-intake webhook service (FastAPI + SQLite).

This file gives a shallow embedding, in Lean, of the ingestion-and-query
data path of the service: the storage layer (app/storage.py over the
schema of app/models.py), HMAC-SHA256 signature verification, payload
validation, and the webhook handler of app/main.py.  The persisted
table is modelled as a list of rows; SQLite query semantics (WHERE,
ORDER BY, LIMIT/OFFSET, LIKE, aggregate MIN/MAX/COUNT/GROUP BY) are
translated explicitly.  Theorems about idempotent insertion, query
ordering, pagination, filters, aggregates, signature checking and the
fail-closed behaviour of the handler follow the definitions.
-/

namespace Webhook

/-! ## Character and string helpers

SQLite "lower(X)" folds only ASCII characters A-Z; the default LIKE
operator is likewise case-insensitive only for ASCII.  Python
str.lower agrees with ASCII folding on ASCII input (all inputs used in
the concrete theorems below are ASCII). -/

/-- ASCII lower-casing of a single character, as done by SQLite lower()
and by Python str.lower on ASCII input. -/
def asciiLowerChar (c : Char) : Char :=
  if 'A' ≤ c ∧ c ≤ 'Z' then Char.ofNat (c.toNat + 32) else c

/-- ASCII lower-casing of a string. -/
def asciiLower (s : String) : String := ⟨s.data.map asciiLowerChar⟩

/-- Strict lexicographic comparison of character lists, the memcmp-style
BINARY collation SQLite applies to TEXT values; on UTF-8 encoded text
the bytewise order coincides with this codepoint order. -/
def memcmpLt : List Char → List Char → Bool
  | [], [] => false
  | [], _ :: _ => true
  | _ :: _, [] => false
  | c :: cs, d :: ds => decide (c < d) || (decide (c = d) && memcmpLt cs ds)

/-- Reflexive lexicographic comparison of character lists. -/
def memcmpLe : List Char → List Char → Bool
  | [], _ => true
  | _ :: _, [] => false
  | c :: cs, d :: ds => decide (c < d) || (decide (c = d) && memcmpLe cs ds)

/-- Strict BINARY-collation comparison of strings. -/
def strLtB (a b : String) : Bool := memcmpLt a.data b.data

/-- Reflexive BINARY-collation comparison of strings. -/
def strLeB (a b : String) : Bool := memcmpLe a.data b.data

/-- Character comparison used by SQLite LIKE: equal up to ASCII case folding. -/
def likeCharEq (p c : Char) : Bool := asciiLowerChar p = asciiLowerChar c

/-- SQLite LIKE pattern matching: percent matches any sequence of zero or
more characters (some suffix of the rest of the string continues the
match), underscore matches exactly one character, every other pattern
character matches a single character up to ASCII case folding.  First
argument is the pattern, second the string. -/
def likeMatch : List Char → List Char → Bool
  | [], s => s.isEmpty
  | '%' :: ps, s => s.tails.any (fun suf => likeMatch ps suf)
  | '_' :: ps, s =>
      match s with
      | [] => false
      | _ :: cs => likeMatch ps cs
  | p :: ps, s =>
      match s with
      | [] => false
      | c :: cs => likeCharEq p c && likeMatch ps cs

/-! ## Data model: the messages table (app/models.py)

CREATE TABLE messages (message_id TEXT PRIMARY KEY, from_msisdn TEXT NOT
NULL, to_msisdn TEXT NOT NULL, ts TEXT NOT NULL, text TEXT, created_at
TEXT NOT NULL).  A row is modelled by the structure below; the nullable
text column is an Option. -/

structure Row where
  message_id : String
  from_msisdn : String
  to_msisdn : String
  ts : String
  text : Option String
  created_at : String
deriving DecidableEq, Repr

/-- The persisted messages table, as the list of its rows. -/
abbrev Table := List Row

/-! ## MessageStorage.insert_message (app/storage.py)

The Python function returns a pair (success, is_duplicate):
(True, False) on a fresh insert, (True, True) when the INSERT raises
sqlite3.IntegrityError (primary-key violation on message_id), and
(False, False) when any other exception occurs.  The fault flag below
models "some exception other than IntegrityError was raised by the
storage layer"; created_at is the server clock value formatted at the
moment of insertion. -/

def insert_message (tbl : Table) (fault : Bool) (created_at : String)
    (message_id from_msisdn to_msisdn ts : String) (text : Option String) :
    (Bool × Bool) × Table :=
  if fault then ((false, false), tbl)
  else if tbl.any (fun r => r.message_id == message_id) then ((true, true), tbl)
  else ((true, false),
    tbl ++ [{ message_id := message_id, from_msisdn := from_msisdn,
              to_msisdn := to_msisdn, ts := ts, text := text,
              created_at := created_at }])

/-! ## MessageStorage.get_messages (app/storage.py)

The WHERE clause is built dynamically: a condition is added for a filter
parameter only when the parameter is truthy in Python, so None and the
empty string both leave the condition out.  The q filter is
LOWER(text) LIKE ? with parameter "%" + q.lower() + "%" (unescaped).
Rows are ordered by ts ASC, message_id ASC and paginated by
LIMIT ? OFFSET ?; the total is counted before pagination. -/

/-- Condition from_msisdn = ?, present only when from_filter is truthy. -/
def condFrom : Option String → Row → Bool
  | none, _ => true
  | some s, r => if s = "" then true else r.from_msisdn == s

/-- Condition ts >= ?, present only when since is truthy.  SQLite compares
TEXT values bytewise, which on UTF-8 agrees with the codepoint order of
Lean strings. -/
def condSince : Option String → Row → Bool
  | none, _ => true
  | some s, r => if s = "" then true else strLeB s r.ts

/-- Condition LOWER(text) LIKE "%" + q.lower() + "%", present only when q
is truthy.  A NULL text makes the SQL condition NULL, so the row is
filtered out. -/
def condQ : Option String → Row → Bool
  | none, _ => true
  | some s, r =>
    if s = "" then true
    else match r.text with
      | none => false
      | some t => likeMatch ("%" ++ asciiLower s ++ "%").data (asciiLower t).data

/-- Conjunction of the dynamically built WHERE conditions. -/
def rowMatch (from_filter since q : Option String) (r : Row) : Bool :=
  condFrom from_filter r && condSince since r && condQ q r

/-- ORDER BY ts ASC, message_id ASC, computed with the BINARY collation. -/
def rowLEB (a b : Row) : Bool :=
  strLtB a.ts b.ts || (a.ts == b.ts && strLeB a.message_id b.message_id)

/-- The ORDER BY relation on rows, as a proposition. -/
def rowLE (a b : Row) : Prop := rowLEB a b = true

instance : DecidableRel rowLE := fun a b => inferInstanceAs (Decidable (rowLEB a b = true))

/-- SQLite LIMIT/OFFSET semantics: a negative OFFSET behaves like 0 and a
negative LIMIT means no upper bound. -/
def sqlPage {α : Type} (limit offset : Int) (l : List α) : List α :=
  if limit < 0 then l.drop offset.toNat
  else (l.drop offset.toNat).take limit.toNat

/-- Externally visible shape of a listed message: the row columns renamed
to the wire names (from_msisdn becomes from). -/
structure Item where
  message_id : String
  from_ : String
  to_ : String
  ts : String
  text : Option String
deriving DecidableEq, Repr

/-- Result dictionary of get_messages. -/
structure QueryResult where
  data : List Item
  total : Nat
  limit : Int
  offset : Int
deriving DecidableEq, Repr

/-- Shape a row into the externally visible item. -/
def shapeRow (r : Row) : Item :=
  { message_id := r.message_id, from_ := r.from_msisdn, to_ := r.to_msisdn,
    ts := r.ts, text := r.text }

/-- MessageStorage.get_messages: the count query computes the number of
rows matching the filters, the data query returns the page of the
matching rows ordered by ts ASC, message_id ASC. -/
def get_messages (tbl : Table) (limit offset : Int)
    (from_filter since q : Option String) : QueryResult :=
  { data := (sqlPage limit offset
      (List.insertionSort rowLE (tbl.filter (rowMatch from_filter since q)))).map shapeRow,
    total := (tbl.filter (rowMatch from_filter since q)).length,
    limit := limit, offset := offset }

/-! ## MessageStorage.get_stats (app/storage.py) -/

/-- One entry of messages_per_sender: a (from, count) pair. -/
structure SenderCount where
  from_ : String
  count : Nat
deriving DecidableEq, Repr

/-- Result dictionary of get_stats. -/
structure Stats where
  total_messages : Nat
  senders_count : Nat
  messages_per_sender : List SenderCount
  first_message_ts : Option String
  last_message_ts : Option String
deriving DecidableEq, Repr

/-- GROUP BY from_msisdn with COUNT(*): one pair per distinct sender. -/
def senderCounts (tbl : Table) : List SenderCount :=
  ((tbl.map Row.from_msisdn).dedup).map
    (fun s => { from_ := s, count := tbl.countP (fun r => r.from_msisdn == s) })

/-- ORDER BY count DESC, as a relation on sender counts. -/
def countGE (a b : SenderCount) : Prop := b.count ≤ a.count

instance : DecidableRel countGE := fun a b => by
  unfold countGE
  infer_instance

instance : IsTotal SenderCount countGE := by
  constructor
  intro a b
  exact (le_total b.count a.count).imp id id

instance : IsTrans SenderCount countGE := by
  constructor
  intro a b c hab hbc
  exact le_trans hbc hab

/-- The smaller of two TEXT values under the BINARY collation. -/
def minB (a b : String) : String := if strLeB a b then a else b

/-- The larger of two TEXT values under the BINARY collation. -/
def maxB (a b : String) : String := if strLeB a b then b else a

/-- SQL aggregate MIN over a list of values: NULL on the empty table. -/
def sqlMin (l : List String) : Option String :=
  match l with
  | [] => none
  | t :: ts => some (ts.foldl minB t)

/-- SQL aggregate MAX over a list of values: NULL on the empty table. -/
def sqlMax (l : List String) : Option String :=
  match l with
  | [] => none
  | t :: ts => some (ts.foldl maxB t)

/-- MessageStorage.get_stats: COUNT(*), COUNT(DISTINCT from_msisdn), the
top ten senders by message count, and MIN(ts)/MAX(ts). -/
def get_stats (tbl : Table) : Stats :=
  { total_messages := tbl.length,
    senders_count := (tbl.map Row.from_msisdn).dedup.length,
    messages_per_sender := (List.insertionSort countGE (senderCounts tbl)).take 10,
    first_message_ts := sqlMin (tbl.map Row.ts),
    last_message_ts := sqlMax (tbl.map Row.ts) }

/-! ## HMAC-SHA256 signature verification (app/main.py, verify_signature)

The Python code computes hmac.new(secret.encode("utf-8"), body,
hashlib.sha256).hexdigest() and compares it to the caller-supplied
signature with hmac.compare_digest, whose value is plain string
equality (its constant-time evaluation is a timing property with no
functional content).  SHA-256 and HMAC are embedded below over byte
lists, a byte being a Nat below 256; 32-bit words are Nats reduced
modulo 2 to the 32. -/

/-- 2 to the 32, the modulus of 32-bit words. -/
def w32 : Nat := 4294967296

/-- Right rotation of a 32-bit word by n bits. -/
def rotr32 (n x : Nat) : Nat := ((x >>> n) ||| (x <<< (32 - n))) % w32

/-- SHA-256 small sigma 0. -/
def wsigma0 (x : Nat) : Nat := (rotr32 7 x) ^^^ (rotr32 18 x) ^^^ (x >>> 3)

/-- SHA-256 small sigma 1. -/
def wsigma1 (x : Nat) : Nat := (rotr32 17 x) ^^^ (rotr32 19 x) ^^^ (x >>> 10)

/-- SHA-256 big sigma 0. -/
def stsigma0 (x : Nat) : Nat := (rotr32 2 x) ^^^ (rotr32 13 x) ^^^ (rotr32 22 x)

/-- SHA-256 big sigma 1. -/
def stsigma1 (x : Nat) : Nat := (rotr32 6 x) ^^^ (rotr32 11 x) ^^^ (rotr32 25 x)

/-- SHA-256 round constants (FIPS 180-4 section 4.2.2), written in
decimal. -/
def K256 : List Nat :=
  [1116352408, 1899447441, 3049323471, 3921009573, 961987163,
   1508970993, 2453635748, 2870763221, 3624381080, 310598401,
   607225278, 1426881987, 1925078388, 2162078206, 2614888103,
   3248222580, 3835390401, 4022224774, 264347078, 604807628,
   770255983, 1249150122, 1555081692, 1996064986, 2554220882,
   2821834349, 2952996808, 3210313671, 3336571891, 3584528711,
   113926993, 338241895, 666307205, 773529912, 1294757372,
   1396182291, 1695183700, 1986661051, 2177026350, 2456956037,
   2730485921, 2820302411, 3259730800, 3345764771, 3516065817,
   3600352804, 4094571909, 275423344, 430227734, 506948616,
   659060556, 883997877, 958139571, 1322822218, 1537002063,
   1747873779, 1955562222, 2024104815, 2227730452, 2361852424,
   2428436474, 2756734187, 3204031479, 3329325298]

/-- SHA-256 initial hash state (FIPS 180-4 section 5.3.3), in decimal. -/
def H256 : List Nat :=
  [1779033703, 3144134277, 1013904242,
   2773480762, 1359893119, 2600822924,
   528734635, 1541459225]

/-- Big-endian byte serialization of a Nat on k bytes. -/
def toBytesBE : Nat → Nat → List Nat
  | 0, _ => []
  | k + 1, n => toBytesBE k (n / 256) ++ [n % 256]

/-- SHA-256 padding: append 0x80, zero bytes, and the 64-bit big-endian
bit length, reaching a multiple of 64 bytes. -/
def sha256pad (msg : List Nat) : List Nat :=
  msg ++ [128] ++ List.replicate ((64 - (msg.length + 9) % 64) % 64) 0
      ++ toBytesBE 8 (msg.length * 8)

/-- Group bytes into big-endian 32-bit words. -/
def bytesToWords : List Nat → List Nat
  | a :: b :: c :: d :: rest => (((a * 256 + b) * 256 + c) * 256 + d) :: bytesToWords rest
  | _ => []

/-- One extension step of the SHA-256 message schedule. -/
def stepW (w : List Nat) : List Nat :=
  w ++ [(w.getD (w.length - 16) 0 + wsigma0 (w.getD (w.length - 15) 0)
        + w.getD (w.length - 7) 0 + wsigma1 (w.getD (w.length - 2) 0)) % w32]

/-- Extend a 16-word block to the 64-word message schedule. -/
def schedule64 (block : List Nat) : List Nat :=
  (List.range 48).foldl (fun w _ => stepW w) block

/-- One SHA-256 compression round on the 8-word working state. -/
def sha256round (st : List Nat) (kw : Nat × Nat) : List Nat :=
  match st with
  | [a, b, c, d, e, f, g, h] =>
    let ch := (e &&& f) ^^^ ((e ^^^ 4294967295) &&& g)
    let t1 := (h + stsigma1 e + ch + kw.1 + kw.2) % w32
    let maj := (a &&& b) ^^^ (a &&& c) ^^^ (b &&& c)
    let t2 := (stsigma0 a + maj) % w32
    [(t1 + t2) % w32, a, b, c, (d + t1) % w32, e, f, g]
  | _ => st

/-- SHA-256 compression of one 16-word block into the hash state. -/
def sha256compress (h : List Nat) (block : List Nat) : List Nat :=
  let w := schedule64 block
  let st := (K256.zip w).foldl sha256round h
  (h.zip st).map (fun p => (p.1 + p.2) % w32)

/-- Fold the compression function over the 16-word blocks of the padded
message; the padding makes the word count a multiple of 16. -/
def sha256blocks (h : List Nat) : List Nat → List Nat
  | w0 :: w1 :: w2 :: w3 :: w4 :: w5 :: w6 :: w7 ::
    w8 :: w9 :: w10 :: w11 :: w12 :: w13 :: w14 :: w15 :: rest =>
      sha256blocks (sha256compress h
        [w0, w1, w2, w3, w4, w5, w6, w7, w8, w9, w10, w11, w12, w13, w14, w15]) rest
  | _ => h

/-- SHA-256 of a byte list, as the 32-byte digest. -/
def sha256 (msg : List Nat) : List Nat :=
  ((sha256blocks H256 (bytesToWords (sha256pad msg))).map (toBytesBE 4)).flatten

/-- Lower-case hexadecimal digit. -/
def hexDigit (n : Nat) : Char := if n < 10 then Char.ofNat (48 + n) else Char.ofNat (87 + n)

/-- Lower-case hexadecimal encoding of a byte list, as hexdigest does. -/
def hexdigest (bs : List Nat) : String :=
  ⟨(bs.map (fun b => [hexDigit (b / 16), hexDigit (b % 16)])).flatten⟩

/-- HMAC-SHA256 over byte lists (hmac.new with hashlib.sha256). -/
def hmacSha256 (key msg : List Nat) : List Nat :=
  let k0 := if 64 < key.length then sha256 key else key
  let k1 := k0 ++ List.replicate (64 - k0.length) 0
  sha256 ((k1.map (fun b => b ^^^ 92)) ++ sha256 ((k1.map (fun b => b ^^^ 54)) ++ msg))

/-- UTF-8 encoding of one character. -/
def utf8Char (c : Char) : List Nat :=
  let n := c.toNat
  if n < 128 then [n]
  else if n < 2048 then [192 + n / 64, 128 + n % 64]
  else if n < 65536 then [224 + n / 4096, 128 + (n / 64) % 64, 128 + n % 64]
  else [240 + n / 262144, 128 + (n / 4096) % 64, 128 + (n / 64) % 64, 128 + n % 64]

/-- UTF-8 encoding of a string, str.encode("utf-8"). -/
def utf8Bytes (s : String) : List Nat := (s.data.map utf8Char).flatten

/-- verify_signature (app/main.py): hex HMAC-SHA256 of the raw body
bytes under the secret, compared with the supplied signature. -/
def verify_signature (secret : String) (body : List Nat) (signature : String) : Bool :=
  hexdigest (hmacSha256 (utf8Bytes secret) body) == signature

/-! ## Payload validation (app/main.py, WebhookPayload)

The handler runs json.loads on the raw body and builds a pydantic
WebhookPayload from the resulting object.  The validator only ever asks
of a field value whether it is a JSON string (and then examines the
string) or JSON null; all other JSON values (numbers, booleans, arrays,
objects) are rejected by the declared str types, pydantic v2 performing
no coercion from them, so they are collapsed into one constructor. -/

inductive JsonVal where
  | str : String → JsonVal
  | null : JsonVal
  | other : JsonVal
deriving DecidableEq, Repr

/-- A JSON object as seen by WebhookPayload(**payload_data): the values
found under the five known keys, if present, and the remaining unknown
keys, which pydantic ignores. -/
structure RawPayload where
  message_id : Option JsonVal
  from_ : Option JsonVal
  to_ : Option JsonVal
  ts : Option JsonVal
  text : Option JsonVal
  extra : List (String × JsonVal)
deriving DecidableEq, Repr

/-- A validated payload. -/
structure Payload where
  message_id : String
  from_ : String
  to_ : String
  ts : String
  text : Option String
deriving DecidableEq, Repr

/-- ASCII digit test, the character class [0-9]. -/
def isDigitChar (c : Char) : Bool := '0' ≤ c && c ≤ '9'

/-- Matching of a whole character list against plus-then-digits, the
body of the E.164 pattern. -/
def e164core : List Char → Bool
  | '+' :: ds => !ds.isEmpty && ds.all isDigitChar
  | _ => false

/-- Python re.match of the anchored E.164 pattern.  In Python the dollar
anchor also matches just before a final newline, so a value consisting
of plus, digits and one trailing newline is accepted by the code. -/
def pyMatchE164 (s : String) : Bool :=
  e164core s.data || (s.data.getLast? == some '\n' && e164core s.data.dropLast)

/-- Numeric fields of a timestamp string that has the required shape. -/
structure TsFields where
  year : Nat
  month : Nat
  day : Nat
  hour : Nat
  minute : Nat
  second : Nat
deriving DecidableEq, Repr

/-- Consume exactly n digit characters, returning their decimal value
and the rest of the input. -/
def takeDigits (acc : Nat) : Nat → List Char → Option (Nat × List Char)
  | 0, cs => some (acc, cs)
  | n + 1, c :: cs =>
      if isDigitChar c then takeDigits (acc * 10 + (c.toNat - 48)) n cs else none
  | _ + 1, [] => none

/-- Consume one expected character. -/
def expectChar (c : Char) : List Char → Option (List Char)
  | d :: cs => if d = c then some cs else none
  | [] => none

/-- Consume the optional fractional-seconds group: a dot followed by one
or more digits, or nothing. -/
def skipFrac : List Char → Option (List Char)
  | '.' :: cs =>
      if (cs.takeWhile isDigitChar).isEmpty then none
      else some (cs.dropWhile isDigitChar)
  | cs => some cs

/-- Parse a whole character list against the timestamp pattern
four digits, dash, two digits, dash, two digits, T, two digits, colon,
two digits, colon, two digits, optional fraction, Z; return the numeric
fields on success. -/
def parseTsFields (cs : List Char) : Option TsFields :=
  (takeDigits 0 4 cs).bind fun (y, cs) =>
  (expectChar '-' cs).bind fun cs =>
  (takeDigits 0 2 cs).bind fun (mo, cs) =>
  (expectChar '-' cs).bind fun cs =>
  (takeDigits 0 2 cs).bind fun (d, cs) =>
  (expectChar 'T' cs).bind fun cs =>
  (takeDigits 0 2 cs).bind fun (h, cs) =>
  (expectChar ':' cs).bind fun cs =>
  (takeDigits 0 2 cs).bind fun (mi, cs) =>
  (expectChar ':' cs).bind fun cs =>
  (takeDigits 0 2 cs).bind fun (se, cs) =>
  (skipFrac cs).bind fun cs =>
  (expectChar 'Z' cs).bind fun cs =>
  match cs with
  | [] => some ⟨y, mo, d, h, mi, se⟩
  | _ => none

/-- Python re.match of the anchored timestamp pattern, with the same
dollar-before-final-newline rule as for E.164. -/
def pyMatchTs (s : String) : Bool :=
  (parseTsFields s.data).isSome ||
  (s.data.getLast? == some '\n' && (parseTsFields s.data.dropLast).isSome)

/-- Gregorian leap year. -/
def isLeap (y : Nat) : Bool := (y % 4 == 0 && y % 100 != 0) || y % 400 == 0

/-- Number of days of a month. -/
def daysInMonth (y m : Nat) : Nat :=
  if m == 2 then (if isLeap y then 29 else 28)
  else if m == 4 || m == 6 || m == 9 || m == 11 then 30 else 31

/-- Range checks performed by datetime.fromisoformat: the year is at
least 1 (datetime.MINYEAR), the month 1 to 12, the day within the
month, hour below 24, minute and second below 60. -/
def calendarOk (f : TsFields) : Bool :=
  1 ≤ f.year && 1 ≤ f.month && f.month ≤ 12 && 1 ≤ f.day &&
  f.day ≤ daysInMonth f.year f.month && f.hour ≤ 23 && f.minute ≤ 59 && f.second ≤ 59

/-- The ts field validator: the regex must match, and
datetime.fromisoformat must accept the value with Z replaced by the
UTC offset.  When the regex matched only thanks to a trailing newline,
fromisoformat always rejects, since the newline survives the
replacement. -/
def validTs (s : String) : Bool :=
  pyMatchTs s &&
  (match parseTsFields s.data with
   | some f => calendarOk f
   | none => false)

/-- WebhookPayload validation: message_id a non-empty string, from and
to strings matching the E.164 pattern, ts a string passing the
timestamp validator, text absent, null, or a string of at most 4096
characters.  Every other object is rejected with a validation error. -/
def webhookPayloadValidate (p : RawPayload) : Option Payload :=
  match p.message_id, p.from_, p.to_, p.ts with
  | some (.str mid), some (.str f), some (.str t), some (.str ts) =>
    if 1 ≤ mid.length && pyMatchE164 f && pyMatchE164 t && validTs ts then
      match p.text with
      | none => some ⟨mid, f, t, ts, none⟩
      | some .null => some ⟨mid, f, t, ts, none⟩
      | some (.str tx) => if tx.length ≤ 4096 then some ⟨mid, f, t, ts, some tx⟩ else none
      | some .other => none
    else none
  | _, _, _, _ => none

/-! ## The webhook handler (app/main.py, POST /webhook)

The handler reads the raw body, fails closed with 401 when the
X-Signature header is absent or verification fails, parses and
validates the body (422 with the exception text on failure), inserts
the message, and replies 200 with status ok whether the insert
reported a fresh row or a duplicate: the success flag of the insert
result is never examined.  json.loads composed with the keyword
expansion into WebhookPayload is modelled by the parse parameter, an
external collaborator returning the JSON object of the body when the
body is a well-formed JSON object. -/

inductive RespBody where
  | ok : RespBody
  | detail : String → RespBody
  | errDetail : RespBody
deriving DecidableEq, Repr

/-- An HTTP response: status code and body.  The errDetail body stands
for the str(e) detail of a validation failure, whose text the spec does
not constrain. -/
structure HttpResponse where
  status : Nat
  body : RespBody
deriving DecidableEq, Repr

/-- The per-request outcome recorded for observability. -/
inductive WebhookResult where
  | invalid_signature : WebhookResult
  | validation_error : WebhookResult
  | created : WebhookResult
  | duplicate : WebhookResult
deriving DecidableEq, Repr

/-- The POST /webhook handler.  Inputs beyond the request: the shared
secret from settings, the parse collaborator, the storage fault flag
and the server clock value consumed by insert_message, and the current
table.  Output: response, recorded outcome, and the table afterwards. -/
def webhook (secret : String) (x_signature : Option String) (body : List Nat)
    (parse : List Nat → Option RawPayload) (fault : Bool) (created_at : String)
    (tbl : Table) : HttpResponse × WebhookResult × Table :=
  match x_signature with
  | none => (⟨401, .detail "invalid signature"⟩, .invalid_signature, tbl)
  | some sig =>
    if verify_signature secret body sig then
      match parse body with
      | none => (⟨422, .errDetail⟩, .validation_error, tbl)
      | some raw =>
        match webhookPayloadValidate raw with
        | none => (⟨422, .errDetail⟩, .validation_error, tbl)
        | some p =>
          let res := insert_message tbl fault created_at p.message_id p.from_ p.to_ p.ts p.text
          (⟨200, .ok⟩, if res.1.2 then .duplicate else .created, res.2)
    else (⟨401, .detail "invalid signature"⟩, .invalid_signature, tbl)

/-! ## Auxiliary definitions used only in statements and witnesses -/

/-- ORDER BY ts ASC, message_id ASC on shaped items, phrased with the
standard lexicographic string order. -/
def itemLE (a b : Item) : Prop :=
  a.ts < b.ts ∨ (a.ts = b.ts ∧ a.message_id ≤ b.message_id)

/-- Case-insensitive substring occurrence with ASCII folding: the meaning
the storage documentation assigns to the q filter. -/
def substrCI (needle hay : String) : Prop :=
  (asciiLower needle).data <:+: (asciiLower hay).data

instance (n h : String) : Decidable (substrCI n h) :=
  inferInstanceAs (Decidable ((asciiLower n).data <:+: (asciiLower h).data))

/-- Sample row whose text contains the letter x between a and b. -/
def wildcardRow : Row :=
  { message_id := "m1", from_msisdn := "+12", to_msisdn := "+34",
    ts := "2025-01-15T10:00:00Z", text := some "axb",
    created_at := "2025-01-15T10:00:00.000Z" }

/-- Sample row used by concrete witnesses. -/
def sampleRow : Row :=
  { message_id := "m7", from_msisdn := "+91", to_msisdn := "+14",
    ts := "2025-01-15T10:00:00Z", text := some "Hello",
    created_at := "2025-01-15T10:00:01.000Z" }

/-- Sample JSON object passing payload validation. -/
def samplePayload : RawPayload :=
  { message_id := some (.str "m1"), from_ := some (.str "+12"),
    to_ := some (.str "+34"), ts := some (.str "2025-01-15T10:00:00Z"),
    text := some (.str "Hello"), extra := [] }

/-- Hex HMAC-SHA256 of the empty byte string under the secret named
secret, used to exercise the handler on a request with a valid
signature. -/
def sigEmptyBody : String :=
  "f9e66e179b6747ae54108f82f8ade8b3c25d76fd30afde6c395822c530196169"

/-! # Theorems

First the bridge between the executable BINARY-collation comparisons
and the standard lexicographic order on strings, then general lemmas
on fold-computed minima and maxima, then one theorem per specified
property. -/

theorem memcmpLt_iff : ∀ a b : List Char, memcmpLt a b = true ↔ List.Lex (· < ·) a b
  | [], [] => by
    constructor
    · intro h
      simp [memcmpLt] at h
    · intro h
      cases h
  | [], _ :: _ => by
    simp only [memcmpLt]
    exact iff_of_true trivial List.Lex.nil
  | c :: cs, [] => by
    constructor
    · intro h
      simp [memcmpLt] at h
    · intro h
      cases h
  | c :: cs, d :: ds => by
    constructor
    · intro h
      rw [memcmpLt, Bool.or_eq_true, Bool.and_eq_true] at h
      rcases h with h | ⟨he, ht⟩
      · exact List.Lex.rel (of_decide_eq_true h)
      · have he2 : c = d := of_decide_eq_true he
        subst he2
        exact List.Lex.cons ((memcmpLt_iff cs ds).mp ht)
    · intro h
      rw [memcmpLt, Bool.or_eq_true, Bool.and_eq_true]
      cases h with
      | rel hr => exact Or.inl (decide_eq_true hr)
      | cons ht => exact Or.inr ⟨decide_eq_true rfl, (memcmpLt_iff cs ds).mpr ht⟩

theorem memcmpLe_iff : ∀ a b : List Char, memcmpLe a b = true ↔ ¬ List.Lex (· < ·) b a
  | [], b => by
    simp only [memcmpLe]
    refine iff_of_true trivial ?_
    intro h
    cases h
  | c :: cs, [] => by
    constructor
    · intro h
      simp [memcmpLe] at h
    · intro h
      exact absurd List.Lex.nil h
  | c :: cs, d :: ds => by
    rw [memcmpLe, Bool.or_eq_true, Bool.and_eq_true]
    constructor
    · rintro (h | ⟨he, ht⟩) hL
      · have hcd : c < d := of_decide_eq_true h
        cases hL with
        | rel hr => exact absurd hcd (lt_asymm hr)
        | cons _ => exact absurd hcd (lt_irrefl _)
      · have he2 : c = d := of_decide_eq_true he
        subst he2
        cases hL with
        | rel hr => exact absurd hr (lt_irrefl _)
        | cons hL2 => exact ((memcmpLe_iff cs ds).mp ht) hL2
    · intro h
      rcases lt_trichotomy c d with hlt | heq | hgt
      · exact Or.inl (decide_eq_true hlt)
      · subst heq
        refine Or.inr ⟨decide_eq_true rfl, (memcmpLe_iff cs ds).mpr ?_⟩
        intro hL
        exact h (List.Lex.cons hL)
      · exact absurd (List.Lex.rel hgt) h

theorem strLtB_iff (a b : String) : strLtB a b = true ↔ a < b := by
  rw [String.lt_iff_toList_lt]
  exact memcmpLt_iff a.data b.data

theorem strLeB_iff (a b : String) : strLeB a b = true ↔ a ≤ b := by
  rw [← not_lt (α := String), String.lt_iff_toList_lt]
  exact memcmpLe_iff a.data b.data

theorem minB_eq_min (a b : String) : minB a b = min a b := by
  unfold minB
  by_cases h : a ≤ b
  · rw [if_pos ((strLeB_iff a b).mpr h), min_eq_left h]
  · rw [if_neg (fun hb => h ((strLeB_iff a b).mp hb)),
       min_eq_right (le_of_not_le h)]

theorem maxB_eq_max (a b : String) : maxB a b = max a b := by
  unfold maxB
  by_cases h : a ≤ b
  · rw [if_pos ((strLeB_iff a b).mpr h), max_eq_right h]
  · rw [if_neg (fun hb => h ((strLeB_iff a b).mp hb)),
       max_eq_left (le_of_not_le h)]

theorem rowLE_iff (a b : Row) :
    rowLE a b ↔ (a.ts < b.ts ∨ (a.ts = b.ts ∧ a.message_id ≤ b.message_id)) := by
  unfold rowLE rowLEB
  rw [Bool.or_eq_true, Bool.and_eq_true, strLtB_iff, strLeB_iff, beq_iff_eq]

theorem rowLE_isTotal : IsTotal Row rowLE := by
  constructor
  intro a b
  rw [rowLE_iff, rowLE_iff]
  rcases lt_trichotomy a.ts b.ts with h | h | h
  · exact Or.inl (Or.inl h)
  · rcases le_total a.message_id b.message_id with h2 | h2
    · exact Or.inl (Or.inr ⟨h, h2⟩)
    · exact Or.inr (Or.inr ⟨h.symm, h2⟩)
  · exact Or.inr (Or.inl h)

theorem rowLE_isTrans : IsTrans Row rowLE := by
  constructor
  intro a b c hab hbc
  rw [rowLE_iff] at *
  rcases hab with h1 | ⟨e1, m1⟩ <;> rcases hbc with h2 | ⟨e2, m2⟩
  · exact Or.inl (h1.trans h2)
  · exact Or.inl (lt_of_lt_of_eq h1 e2)
  · exact Or.inl (lt_of_eq_of_lt e1 h2)
  · exact Or.inr ⟨e1.trans e2, m1.trans m2⟩

theorem foldl_minB_eq (l : List String) (t : String) :
    l.foldl minB t = l.foldl min t := by
  induction l generalizing t with
  | nil => rfl
  | cons u us ih => rw [List.foldl_cons, List.foldl_cons, minB_eq_min, ih]

theorem foldl_maxB_eq (l : List String) (t : String) :
    l.foldl maxB t = l.foldl max t := by
  induction l generalizing t with
  | nil => rfl
  | cons u us ih => rw [List.foldl_cons, List.foldl_cons, maxB_eq_max, ih]

theorem foldl_min_mem (l : List String) (t : String) : l.foldl min t ∈ t :: l := by
  induction l generalizing t with
  | nil => simp
  | cons u us ih =>
    rw [List.foldl_cons]
    rcases List.mem_cons.mp (ih (min t u)) with h | h
    · rcases min_choice t u with h2 | h2 <;> rw [h, h2]
      · exact List.mem_cons_self _ _
      · exact List.mem_cons_of_mem _ (List.mem_cons_self _ _)
    · exact List.mem_cons_of_mem _ (List.mem_cons_of_mem _ h)

theorem foldl_max_mem (l : List String) (t : String) : l.foldl max t ∈ t :: l := by
  induction l generalizing t with
  | nil => simp
  | cons u us ih =>
    rw [List.foldl_cons]
    rcases List.mem_cons.mp (ih (max t u)) with h | h
    · rcases max_choice t u with h2 | h2 <;> rw [h, h2]
      · exact List.mem_cons_self _ _
      · exact List.mem_cons_of_mem _ (List.mem_cons_self _ _)
    · exact List.mem_cons_of_mem _ (List.mem_cons_of_mem _ h)

theorem foldl_min_le (l : List String) (t : String) :
    ∀ x ∈ t :: l, l.foldl min t ≤ x := by
  induction l generalizing t with
  | nil =>
    intro x hx
    rw [List.mem_singleton] at hx
    subst hx
    exact le_refl _
  | cons u us ih =>
    intro x hx
    rw [List.foldl_cons]
    rcases List.mem_cons.mp hx with he | hx2
    · rw [he]
      exact le_trans (ih (min t u) _ (List.mem_cons_self _ _)) (min_le_left t u)
    · rcases List.mem_cons.mp hx2 with he | hx3
      · rw [he]
        exact le_trans (ih (min t u) _ (List.mem_cons_self _ _)) (min_le_right t u)
      · exact ih (min t u) x (List.mem_cons_of_mem _ hx3)

theorem foldl_le_max (l : List String) (t : String) :
    ∀ x ∈ t :: l, x ≤ l.foldl max t := by
  induction l generalizing t with
  | nil =>
    intro x hx
    rw [List.mem_singleton] at hx
    subst hx
    exact le_refl _
  | cons u us ih =>
    intro x hx
    rw [List.foldl_cons]
    rcases List.mem_cons.mp hx with he | hx2
    · rw [he]
      exact le_trans (le_max_left t u) (ih (max t u) _ (List.mem_cons_self _ _))
    · rcases List.mem_cons.mp hx2 with he | hx3
      · rw [he]
        exact le_trans (le_max_right t u) (ih (max t u) _ (List.mem_cons_self _ _))
      · exact ih (max t u) x (List.mem_cons_of_mem _ hx3)

/-- C1: on a table holding no row with the given message_id, insert
reports (created) and appends exactly that row, the stored table then
holds exactly one row with that message_id, and a subsequent insert
with the same message_id and arbitrary other field values reports
(duplicate) and leaves the table, hence the originally stored row,
unchanged. -/
theorem insert_created_then_duplicate (tbl : Table)
    (created created2 mid f t ts f2 t2 ts2 : String) (txt txt2 : Option String)
    (hfresh : ∀ r ∈ tbl, r.message_id ≠ mid) :
    insert_message tbl false created mid f t ts txt =
      ((true, false), tbl ++ [(⟨mid, f, t, ts, txt, created⟩ : Row)]) ∧
    (tbl ++ [(⟨mid, f, t, ts, txt, created⟩ : Row)]).countP
        (fun r => r.message_id == mid) = 1 ∧
    insert_message (tbl ++ [(⟨mid, f, t, ts, txt, created⟩ : Row)]) false created2
        mid f2 t2 ts2 txt2 =
      ((true, true), tbl ++ [(⟨mid, f, t, ts, txt, created⟩ : Row)]) := by
  have hany : tbl.any (fun r => r.message_id == mid) = false := by
    rw [List.any_eq_false]
    intro r hr
    simpa using hfresh r hr
  refine ⟨?_, ?_, ?_⟩
  · rw [insert_message, if_neg (by simp), if_neg (by simp [hany])]
  · rw [List.countP_append]
    have h0 : tbl.countP (fun r => r.message_id == mid) = 0 := by
      rw [List.countP_eq_zero]
      intro r hr
      simpa using hfresh r hr
    simp [h0, List.countP_cons]
  · rw [insert_message, if_neg (by simp), if_pos]
    rw [List.any_append]
    simp

/-- C1 witness: the two-insert scenario evaluated on the empty table. -/
theorem insert_created_then_duplicate_witness :
    insert_message [] false "ca" "m1" "+12" "+34" "2025-01-15T10:00:00Z" (some "Hello") =
      ((true, false), [(⟨"m1", "+12", "+34", "2025-01-15T10:00:00Z", some "Hello", "ca"⟩ : Row)]) ∧
    ([] ++ [(⟨"m1", "+12", "+34", "2025-01-15T10:00:00Z", some "Hello", "ca"⟩ : Row)]).countP
        (fun (r : Row) => r.message_id == "m1") = 1 ∧
    insert_message ([] ++ [(⟨"m1", "+12", "+34", "2025-01-15T10:00:00Z", some "Hello", "ca"⟩ : Row)])
        false "cb" "m1" "+9" "+8" "2030-01-01T00:00:00Z" none =
      ((true, true), [(⟨"m1", "+12", "+34", "2025-01-15T10:00:00Z", some "Hello", "ca"⟩ : Row)]) :=
  insert_created_then_duplicate [] "ca" "cb" "m1" "+12" "+34" "2025-01-15T10:00:00Z"
    "+9" "+8" "2030-01-01T00:00:00Z" (some "Hello") none (by intro r hr; cases hr)

/-- C3: the items returned by get_messages are sorted by ts ascending
with ties broken by message_id ascending, both under the lexicographic
string order, for every table state, filter combination and page; and
the query is a pure function, so two calls with identical parameters
against unchanged data return identical results. -/
theorem get_messages_ordering (tbl : Table) (limit offset : Int)
    (from_filter since q : Option String) :
    List.Sorted itemLE (get_messages tbl limit offset from_filter since q).data ∧
    get_messages tbl limit offset from_filter since q =
      get_messages tbl limit offset from_filter since q := by
  refine ⟨?_, rfl⟩
  haveI := rowLE_isTotal
  haveI := rowLE_isTrans
  have hs : List.Sorted rowLE
      (List.insertionSort rowLE (tbl.filter (rowMatch from_filter since q))) :=
    List.sorted_insertionSort rowLE _
  have hp : List.Sorted rowLE (sqlPage limit offset
      (List.insertionSort rowLE (tbl.filter (rowMatch from_filter since q)))) := by
    rw [sqlPage]
    split
    · exact hs.sublist (List.drop_sublist _ _)
    · exact hs.sublist ((List.take_sublist _ _).trans (List.drop_sublist _ _))
  show List.Sorted itemLE ((sqlPage limit offset _).map shapeRow)
  rw [List.Sorted, List.pairwise_map]
  exact hp.imp (fun h => (rowLE_iff _ _).mp h)

/-- C4: the total reported by get_messages is the number of rows
matching the filters, computed before pagination, so it does not depend
on limit and offset; with a non-negative limit the returned page never
has more than limit items; and an offset at least the matching count
yields an empty page with the total unchanged. -/
theorem get_messages_pagination (tbl : Table) (from_filter since q : Option String)
    (limit offset limit2 offset2 : Int) (hlim : 0 ≤ limit) :
    (get_messages tbl limit offset from_filter since q).total
        = (tbl.filter (rowMatch from_filter since q)).length ∧
    (get_messages tbl limit offset from_filter since q).total
        = (get_messages tbl limit2 offset2 from_filter since q).total ∧
    (((get_messages tbl limit offset from_filter since q).data.length : Int) ≤ limit) ∧
    (((tbl.filter (rowMatch from_filter since q)).length : Int) ≤ offset →
      (get_messages tbl limit offset from_filter since q).data = []) := by
  refine ⟨rfl, rfl, ?_, ?_⟩
  · show (((sqlPage limit offset (List.insertionSort rowLE
        (tbl.filter (rowMatch from_filter since q)))).map shapeRow).length : Int) ≤ limit
    rw [List.length_map, sqlPage, if_neg (not_lt.mpr hlim)]
    have h1 := List.length_take_le limit.toNat
      ((List.insertionSort rowLE (tbl.filter (rowMatch from_filter since q))).drop offset.toNat)
    omega
  · intro hoff
    show ((sqlPage limit offset (List.insertionSort rowLE
        (tbl.filter (rowMatch from_filter since q)))).map shapeRow) = []
    have hlen : (List.insertionSort rowLE
        (tbl.filter (rowMatch from_filter since q))).length ≤ offset.toNat := by
      rw [List.length_insertionSort]
      omega
    rw [sqlPage, List.drop_eq_nil_of_le hlen]
    split <;> simp

/-- C4 witness: pagination facts evaluated on a one-row table with
limit 50 and offset 100. -/
theorem get_messages_pagination_witness :
    (get_messages [sampleRow] 50 100 none none none).total = 1 ∧
    (get_messages [sampleRow] 50 100 none none none).data = [] := by
  have h := get_messages_pagination [sampleRow] none none none 50 100 1 0 (by decide)
  exact ⟨h.1.trans (by decide), h.2.2.2 (by decide)⟩

/-- C10: passing the empty string for any of the three filter
parameters produces exactly the same query result as omitting the
parameter, because each WHERE condition is gated on Python truthiness;
in particular an empty from filter does not restrict to rows with an
empty sender but disables the condition entirely. -/
theorem empty_filter_params_ignored (tbl : Table) (limit offset : Int)
    (from_filter since q : Option String) :
    get_messages tbl limit offset (some "") since q =
      get_messages tbl limit offset none since q ∧
    get_messages tbl limit offset from_filter (some "") q =
      get_messages tbl limit offset from_filter none q ∧
    get_messages tbl limit offset from_filter since (some "") =
      get_messages tbl limit offset from_filter since none := by
  have h1 : rowMatch (some "") since q = rowMatch none since q := by
    funext r
    simp [rowMatch, condFrom]
  have h2 : rowMatch from_filter (some "") q = rowMatch from_filter none q := by
    funext r
    simp [rowMatch, condSince]
  have h3 : rowMatch from_filter since (some "") = rowMatch from_filter since none := by
    funext r
    simp [rowMatch, condQ]
  refine ⟨?_, ?_, ?_⟩ <;> simp only [get_messages, h1, h2, h3]

/-- C5: the q filter does not implement plain case-insensitive
substring search: the query string is spliced into a LIKE pattern
without escaping, so its percent and underscore characters act as
wildcards.  The query a_b returns the row whose text is axb although
a_b does not occur in axb as a (case-insensitive) substring, because
the underscore matches the letter x. -/
theorem q_filter_wildcard_divergence :
    (get_messages [wildcardRow] 50 0 none none (some "a_b")).total = 1 ∧
    (get_messages [wildcardRow] 50 0 none none (some "a_b")).data =
      [shapeRow wildcardRow] ∧
    ¬ substrCI "a_b" "axb" := by
  refine ⟨by decide, by decide, by decide⟩

/-- C6: get_stats reports the number of rows, the number of distinct
senders, at most ten sender-count pairs sorted by count descending with
each count the number of that sender's rows (and a deterministic result
for a fixed table, get_stats being a function), and the minimum and
maximum ts, null exactly on the empty table. -/
theorem get_stats_correct (tbl : Table) :
    (get_stats tbl).total_messages = tbl.length ∧
    (get_stats tbl).senders_count = (tbl.map Row.from_msisdn).toFinset.card ∧
    (get_stats tbl).messages_per_sender.length ≤ 10 ∧
    List.Sorted countGE (get_stats tbl).messages_per_sender ∧
    (∀ p ∈ (get_stats tbl).messages_per_sender,
        p.count = tbl.countP (fun r => r.from_msisdn == p.from_)) ∧
    ((get_stats tbl).first_message_ts = none ↔ tbl = []) ∧
    ((get_stats tbl).last_message_ts = none ↔ tbl = []) ∧
    (∀ m, (get_stats tbl).first_message_ts = some m →
        m ∈ tbl.map Row.ts ∧ ∀ r ∈ tbl, m ≤ r.ts) ∧
    (∀ m, (get_stats tbl).last_message_ts = some m →
        m ∈ tbl.map Row.ts ∧ ∀ r ∈ tbl, r.ts ≤ m) := by
  refine ⟨rfl, (List.card_toFinset _).symm, List.length_take_le _ _, ?_, ?_, ?_, ?_, ?_, ?_⟩
  · exact List.Pairwise.sublist (List.take_sublist _ _)
      (List.sorted_insertionSort countGE (senderCounts tbl))
  · intro p hp
    have hp2 : p ∈ List.insertionSort countGE (senderCounts tbl) :=
      List.take_subset _ _ hp
    rw [List.mem_insertionSort] at hp2
    rcases List.mem_map.mp hp2 with ⟨s, _, rfl⟩
    rfl
  · cases tbl with
    | nil => simp [get_stats, sqlMin]
    | cons r rs => simp [get_stats, sqlMin]
  · cases tbl with
    | nil => simp [get_stats, sqlMax]
    | cons r rs => simp [get_stats, sqlMax]
  · intro m hm
    cases tbl with
    | nil => simp [get_stats, sqlMin] at hm
    | cons r rs =>
      have hm2 : ((rs.map Row.ts).foldl minB r.ts) = m := by
        simpa [get_stats, sqlMin] using hm
      rw [foldl_minB_eq] at hm2
      constructor
      · rw [← hm2]
        exact foldl_min_mem _ _
      · intro r2 hr2
        rw [← hm2]
        exact foldl_min_le _ _ r2.ts (by
          rcases List.mem_cons.mp hr2 with he | hmem
          · rw [he]
            exact List.mem_cons_self _ _
          · exact List.mem_cons_of_mem _ (List.mem_map_of_mem Row.ts hmem))
  · intro m hm
    cases tbl with
    | nil => simp [get_stats, sqlMax] at hm
    | cons r rs =>
      have hm2 : ((rs.map Row.ts).foldl maxB r.ts) = m := by
        simpa [get_stats, sqlMax] using hm
      rw [foldl_maxB_eq] at hm2
      constructor
      · rw [← hm2]
        exact foldl_max_mem _ _
      · intro r2 hr2
        rw [← hm2]
        exact foldl_le_max _ _ r2.ts (by
          rcases List.mem_cons.mp hr2 with he | hmem
          · rw [he]
            exact List.mem_cons_self _ _
          · exact List.mem_cons_of_mem _ (List.mem_map_of_mem Row.ts hmem))

/-- C6 witness: the aggregate facts evaluated on a one-row table. -/
theorem get_stats_correct_witness :
    (get_stats [sampleRow]).total_messages = 1 ∧
    (get_stats [sampleRow]).senders_count = 1 ∧
    "2025-01-15T10:00:00Z" ∈ [sampleRow].map Row.ts ∧
    (∀ r ∈ [sampleRow], "2025-01-15T10:00:00Z" ≤ r.ts) := by
  have h := get_stats_correct [sampleRow]
  have hfirst := h.2.2.2.2.2.2.2.1 "2025-01-15T10:00:00Z" (by decide)
  exact ⟨h.1.trans (by decide), h.2.1.trans (by decide), hfirst.1, hfirst.2⟩

set_option maxRecDepth 8000 in
/-- Sanity check of the SHA-256 embedding against the standard empty-input
digest. -/
theorem sha256_empty_vector :
    hexdigest (sha256 []) =
      "e3b0c44298fc1c149afbf4c8996fb92427ae41e4649b934ca495991b7852b855" := by
  decide

set_option maxRecDepth 8000 in
/-- Sanity check of the SHA-256 embedding against the standard abc digest. -/
theorem sha256_abc_vector :
    hexdigest (sha256 (utf8Bytes "abc")) =
      "ba7816bf8f01cfea414140de5dae2223b00361a396177a9cb410ff61f20015ad" := by
  decide

set_option maxRecDepth 20000 in
/-- Sanity check of the HMAC-SHA256 embedding against test case 2 of
RFC 4231. -/
theorem hmac_rfc4231_vector :
    hexdigest (hmacSha256 (utf8Bytes "Jefe") (utf8Bytes "what do ya want for nothing?")) =
      "5bdcc146bf60754e6a042426089575c75a003f089d2739839dec58b964ec3843" := by
  decide

/-- C7: verify_signature accepts exactly the hex-encoded HMAC-SHA256 of
the raw body bytes keyed by the secret.  The result is by construction a
function of the triple (secret, raw bytes, signature) alone, and the
hash is computed over the raw bytes given, never a re-serialization. -/
theorem verify_signature_iff (secret : String) (body : List Nat) (signature : String) :
    verify_signature secret body signature = true ↔
      signature = hexdigest (hmacSha256 (utf8Bytes secret) body) := by
  rw [verify_signature, beq_iff_eq, eq_comm]

/-- A string is distinct from the empty string exactly when its length
is at least one, the form of the pydantic min_length check. -/
theorem one_le_length_iff_ne_empty (s : String) : 1 ≤ s.length ↔ s ≠ "" := by
  constructor
  · intro h he
    rw [he] at h
    exact absurd h (by decide)
  · intro h
    cases s with
    | mk l =>
      cases l with
      | nil => exact absurd rfl h
      | cons c cs =>
        show 1 ≤ (c :: cs).length
        rw [List.length_cons]
        omega

set_option maxRecDepth 20000 in
/-- C2 (code bug): when the storage layer faults, insert_message
reports (False, False), an outcome distinct from created and duplicate
at the storage interface; but the webhook handler never reads the
success flag, so a request whose insert faults is answered 200 with
body status ok and recorded as created, not as an internal error. -/
theorem storage_fault_answered_as_created :
    insert_message [] true "2025-01-15T10:00:01.000Z" "m1" "+12" "+34"
        "2025-01-15T10:00:00Z" (some "Hello") = ((false, false), []) ∧
    webhook "secret" (some sigEmptyBody) [] (fun _ => some samplePayload) true
        "2025-01-15T10:00:01.000Z" [] =
      (⟨200, RespBody.ok⟩, WebhookResult.created, []) := by
  exact ⟨rfl, by decide⟩

/-- C8: the handler fails closed.  A missing signature header or a
failing verification yields 401 with detail invalid signature and
leaves the table unchanged; with a valid signature, a body that fails
JSON parsing or payload validation yields 422 and leaves the table
unchanged. -/
theorem webhook_fails_closed (secret : String) (xsig : Option String) (body : List Nat)
    (parse : List Nat → Option RawPayload) (fault : Bool) (created_at : String)
    (tbl : Table) :
    (xsig = none →
      webhook secret xsig body parse fault created_at tbl =
        (⟨401, RespBody.detail "invalid signature"⟩, WebhookResult.invalid_signature, tbl)) ∧
    (∀ sig, xsig = some sig → verify_signature secret body sig = false →
      webhook secret xsig body parse fault created_at tbl =
        (⟨401, RespBody.detail "invalid signature"⟩, WebhookResult.invalid_signature, tbl)) ∧
    (∀ sig, xsig = some sig → verify_signature secret body sig = true → parse body = none →
      webhook secret xsig body parse fault created_at tbl =
        (⟨422, RespBody.errDetail⟩, WebhookResult.validation_error, tbl)) ∧
    (∀ sig raw, xsig = some sig → verify_signature secret body sig = true →
      parse body = some raw → webhookPayloadValidate raw = none →
      webhook secret xsig body parse fault created_at tbl =
        (⟨422, RespBody.errDetail⟩, WebhookResult.validation_error, tbl)) := by
  refine ⟨?_, ?_, ?_, ?_⟩
  · intro h
    subst h
    rfl
  · intro sig h hv
    subst h
    simp [webhook, hv]
  · intro sig h hv hp
    subst h
    simp [webhook, hv, hp]
  · intro sig raw h hv hp hval
    subst h
    simp [webhook, hv, hp, hval]

set_option maxRecDepth 20000 in
/-- C8 witness: a request with no signature header, and a request with
a valid signature whose body does not parse, both against the empty
table. -/
theorem webhook_fails_closed_witness :
    webhook "secret" none [] (fun _ => none) false "ca" [] =
      (⟨401, RespBody.detail "invalid signature"⟩, WebhookResult.invalid_signature, []) ∧
    webhook "secret" (some sigEmptyBody) [] (fun _ => none) false "ca" [] =
      (⟨422, RespBody.errDetail⟩, WebhookResult.validation_error, []) := by
  refine ⟨(webhook_fails_closed "secret" none [] (fun _ => none) false "ca" []).1 rfl,
    (webhook_fails_closed "secret" (some sigEmptyBody) [] (fun _ => none) false "ca" []).2.2.1
      sigEmptyBody rfl (by decide) rfl⟩

/-- C9: a JSON object passes payload validation exactly when message_id
is a non-empty JSON string, from and to are JSON strings accepted by
the anchored E.164 pattern, ts is a JSON string that matches the
anchored timestamp pattern and also parses as a real calendar instant
in UTC (so a shape-matching but impossible date such as month 13 is
rejected), and text is absent, null, or a JSON string of at most 4096
characters; any single violation rejects the whole payload, and
unknown extra keys are ignored. -/
theorem payload_validation_iff (p : RawPayload) :
    ((webhookPayloadValidate p).isSome = true ↔
      ((∃ s, p.message_id = some (JsonVal.str s) ∧ s ≠ "") ∧
       (∃ s, p.from_ = some (JsonVal.str s) ∧ pyMatchE164 s = true) ∧
       (∃ s, p.to_ = some (JsonVal.str s) ∧ pyMatchE164 s = true) ∧
       (∃ s, p.ts = some (JsonVal.str s) ∧ pyMatchTs s = true ∧
          ∃ fs, parseTsFields s.data = some fs ∧ calendarOk fs = true) ∧
       (p.text = none ∨ p.text = some JsonVal.null ∨
          ∃ s, p.text = some (JsonVal.str s) ∧ s.length ≤ 4096))) ∧
    (∀ e, webhookPayloadValidate { p with extra := e } = webhookPayloadValidate p) := by
  constructor
  · constructor
    · intro h
      unfold webhookPayloadValidate at h
      split at h
      · rename_i mid f t tss hmid hf ht hts
        split at h
        · rename_i hcond
          rw [Bool.and_eq_true, Bool.and_eq_true, Bool.and_eq_true] at hcond
          obtain ⟨⟨⟨hlen, hfe⟩, hte⟩, hvts⟩ := hcond
          rw [validTs, Bool.and_eq_true] at hvts
          obtain ⟨hpy, hcal⟩ := hvts
          refine ⟨⟨mid, hmid, ?_⟩, ⟨f, hf, hfe⟩, ⟨t, ht, hte⟩, ⟨tss, hts, hpy, ?_⟩, ?_⟩
          · exact (one_le_length_iff_ne_empty mid).mp (of_decide_eq_true hlen)
          · split at hcal
            · rename_i fs hfs
              exact ⟨fs, hfs, hcal⟩
            · exact absurd hcal (by simp)
          · split at h
            · exact Or.inl (by assumption)
            · exact Or.inr (Or.inl (by assumption))
            · rename_i tx htx
              split at h
              · rename_i hlen2
                exact Or.inr (Or.inr ⟨tx, htx, hlen2⟩)
              · exact absurd h (by simp)
            · exact absurd h (by simp)
        · exact absurd h (by simp)
      · exact absurd h (by simp)
    · rintro ⟨⟨mid, hmid, hne⟩, ⟨f, hf, hfe⟩, ⟨t, ht, hte⟩,
        ⟨tss, hts, hpy, fs, hparse, hcal⟩, htext⟩
      unfold webhookPayloadValidate
      have hcond : (decide (1 ≤ mid.length) && pyMatchE164 f && pyMatchE164 t
          && validTs tss) = true := by
        rw [Bool.and_eq_true, Bool.and_eq_true, Bool.and_eq_true]
        refine ⟨⟨⟨decide_eq_true ((one_le_length_iff_ne_empty mid).mpr hne), hfe⟩, hte⟩, ?_⟩
        rw [validTs, Bool.and_eq_true, hparse]
        exact ⟨hpy, hcal⟩
      rcases htext with htx | htx | ⟨s, htx, hlen⟩ <;>
        simp only [hmid, hf, ht, hts, htx, hcond, if_true, Option.isSome_some]
      rw [if_pos hlen]
      rfl
  · intro e
    rfl

/-- C9 witness: the characterization applied to the valid sample
payload, to the same payload carrying an unknown extra key, and to the
same payload with calendar month 13, which matches the regex shape but
is rejected. -/
theorem payload_validation_iff_witness :
    (webhookPayloadValidate samplePayload).isSome = true ∧
    webhookPayloadValidate { samplePayload with extra := [("source", JsonVal.null)] } =
      webhookPayloadValidate samplePayload ∧
    ¬ (webhookPayloadValidate { samplePayload with
        ts := some (JsonVal.str "2025-13-01T00:00:00Z") }).isSome = true := by
  refine ⟨?_, (payload_validation_iff samplePayload).2 [("source", JsonVal.null)], ?_⟩
  · refine (payload_validation_iff samplePayload).1.mpr
      ⟨⟨"m1", rfl, by decide⟩, ⟨"+12", rfl, by decide⟩, ⟨"+34", rfl, by decide⟩,
       ⟨"2025-01-15T10:00:00Z", rfl, by decide, ⟨2025, 1, 15, 10, 0, 0⟩, by decide, by decide⟩,
       Or.inr (Or.inr ⟨"Hello", rfl, by decide⟩)⟩
  · intro h
    have hc := (payload_validation_iff _).1.mp h
    rcases hc.2.2.2.1 with ⟨s, hs, _, fs, hparse, hcal⟩
    have hs2 : s = "2025-13-01T00:00:00Z" := by
      have : (JsonVal.str "2025-13-01T00:00:00Z") = (JsonVal.str s) := Option.some.inj hs
      cases this
      rfl
    subst hs2
    rw [show parseTsFields ("2025-13-01T00:00:00Z").data =
        some ⟨2025, 13, 1, 0, 0, 0⟩ from by decide] at hparse
    have hfs : fs = ⟨2025, 13, 1, 0, 0, 0⟩ := (Option.some.inj hparse).symm
    subst hfs
    exact absurd hcal (by decide)

end Webhook

